import Mathlib

/-!
Verification of the TD Setup indicator engine from `src/config/indicatorExtensions.ts`.

The source file contains two historical versions of the indicator module:
* a count-emitting version (`CountVariant` below) whose per-bar result carries the
  saturating streak counts `sellSetup` / `buySetup`;
* an index-emitting version (`IndexVariant` below) whose per-bar result carries
  `sellSetupIndex` / `buySetupIndex`, the bar index at which a streak first reached 9.

Prices are JavaScript numbers in the source; we model them as rationals (`ℚ`), which keeps
all comparisons decidable and executable.  `Math.min`/`Math.max`, `Math.floor`/`Math.ceil`
map to `min`/`max`, `Int.floor`/`Int.ceil`.  The canvas context is modelled as a trace of
the operations performed on it (`CtxOp`), so that "what was painted" is a plain list.
-/

/-- One OHLC sample, mirroring the `KLineData` records consumed from klinecharts.
`open` is a Lean keyword, hence the field name `openPrice`; the engine never reads it. -/
structure KLineData where
  timestamp : Int
  openPrice : ℚ
  high : ℚ
  low : ℚ
  close : ℚ
deriving Repr, DecidableEq, Inhabited

/-- The `TdOptions` configuration record of both versions. -/
structure TdOptions where
  name : String
  shortName : String
  closeOnly : Bool
deriving Repr, DecidableEq

/-- Helper used by concrete test series: a bar whose four prices are all `c`. -/
def flatBar (t : Int) (c : ℚ) : KLineData :=
  ⟨t, c, c, c, c⟩

/-- The sell comparison of bar `i` against bar `i - 4`:
`close[i] > close[i-4]`, strengthened by `high[i] ≥ high[i-4]` unless `closeOnly`.
Both versions of `createTdSetupResults` evaluate exactly this for `i ≥ 4`. -/
def sellCondition (dataList : List KLineData) (options : TdOptions) (index : Nat) : Bool :=
  let current := dataList.getD index default
  let compared := dataList.getD (index - 4) default
  let sellCloseCondition := decide (current.close > compared.close)
  if options.closeOnly then sellCloseCondition
  else sellCloseCondition && decide (current.high ≥ compared.high)

/-- The buy comparison of bar `i` against bar `i - 4`:
`close[i] < close[i-4]`, strengthened by `low[i] ≤ low[i-4]` unless `closeOnly`. -/
def buyCondition (dataList : List KLineData) (options : TdOptions) (index : Nat) : Bool :=
  let current := dataList.getD index default
  let compared := dataList.getD (index - 4) default
  let buyCloseCondition := decide (current.close < compared.close)
  if options.closeOnly then buyCloseCondition
  else buyCloseCondition && decide (current.low ≤ compared.low)

namespace CountVariant

/-- Per-bar output of the count-emitting version: the saturating streak counts. -/
structure TdSetupResult where
  sellSetup : Option Nat
  buySetup : Option Nat
deriving Repr, DecidableEq, Inhabited

/-- Outcome of one loop iteration of the count-emitting `createTdSetupResults`:
the updated `sellCount` / `buyCount` mutables and the record pushed to `results`. -/
structure StepOut where
  sellCount : Nat
  buyCount : Nat
  result : TdSetupResult
deriving Repr, DecidableEq

/-- One iteration of the count-emitting loop at `index`, given the counters so far. -/
def countStep (dataList : List KLineData) (options : TdOptions) (index : Nat)
    (sellCount buyCount : Nat) : StepOut :=
  if 4 ≤ index then
    let sc := sellCondition dataList options index
    let bc := buyCondition dataList options index
    let sell : Nat × Option Nat :=
      if sc then (sellCount + 1, some (min (sellCount + 1) 9)) else (0, none)
    let buy : Nat × Option Nat :=
      if bc then (buyCount + 1, some (min (buyCount + 1) 9)) else (0, none)
    ⟨sell.1, buy.1, ⟨sell.2, buy.2⟩⟩
  else
    ⟨0, 0, ⟨none, none⟩⟩

/-- The loop of the count-emitting `createTdSetupResults`, as structural recursion on the
number `n` of bars still to process, starting at `index` with the given counters. -/
def tdGo (dataList : List KLineData) (options : TdOptions) :
    Nat → Nat → Nat → Nat → List TdSetupResult
  | 0, _, _, _ => []
  | n + 1, index, sellCount, buyCount =>
    let s := countStep dataList options index sellCount buyCount
    s.result :: tdGo dataList options n (index + 1) s.sellCount s.buyCount

/-- The count-emitting `createTdSetupResults`: one saturating-count record per input bar. -/
def createTdSetupResults (dataList : List KLineData) (options : TdOptions) :
    List TdSetupResult :=
  tdGo dataList options dataList.length 0 0 0

/-- The `(sellCount, buyCount)` mutable pair after the first `i` loop iterations. -/
def countersAfter (dataList : List KLineData) (options : TdOptions) : Nat → Nat × Nat
  | 0 => (0, 0)
  | i + 1 =>
    let p := countersAfter dataList options i
    let s := countStep dataList options i p.1 p.2
    (s.sellCount, s.buyCount)

/-- The record pushed for bar `i`, expressed through the counter history. -/
def resultAt (dataList : List KLineData) (options : TdOptions) (i : Nat) : TdSetupResult :=
  (countStep dataList options i (countersAfter dataList options i).1
    (countersAfter dataList options i).2).result

end CountVariant

namespace IndexVariant

/-- Per-bar output of the index-emitting version: the completion indices. -/
structure TdSetupResult where
  sellSetupIndex : Option Nat
  buySetupIndex : Option Nat
deriving Repr, DecidableEq, Inhabited

/-- The four mutable variables of the index-emitting loop. -/
structure LoopState where
  sellCount : Nat
  buyCount : Nat
  sellNineIndex : Option Nat
  buyNineIndex : Option Nat
deriving Repr, DecidableEq

/-- The mutable state before the first iteration. -/
def initState : LoopState := ⟨0, 0, none, none⟩

/-- One iteration of the index-emitting loop at `index`.  The record pushed for this bar
is exactly the pair of nine-indices of the post-state, since the local `sellNine` /
`buyNine` equal `sellNineIndex` / `buyNineIndex` after any assignment this iteration. -/
def idxStep (dataList : List KLineData) (options : TdOptions) (index : Nat)
    (st : LoopState) : LoopState :=
  if 4 ≤ index then
    let sc := sellCondition dataList options index
    let bc := buyCondition dataList options index
    let sell : Nat × Option Nat :=
      if sc then
        (st.sellCount + 1,
          if 9 ≤ st.sellCount + 1 ∧ st.sellNineIndex = none then some index
          else st.sellNineIndex)
      else (0, st.sellNineIndex)
    let buy : Nat × Option Nat :=
      if bc then
        (st.buyCount + 1,
          if 9 ≤ st.buyCount + 1 ∧ st.buyNineIndex = none then some index
          else st.buyNineIndex)
      else (0, st.buyNineIndex)
    ⟨sell.1, buy.1, sell.2, buy.2⟩
  else
    ⟨0, 0, st.sellNineIndex, st.buyNineIndex⟩

/-- The loop of the index-emitting `createTdSetupResults`. -/
def idxGo (dataList : List KLineData) (options : TdOptions) :
    Nat → Nat → LoopState → List TdSetupResult
  | 0, _, _ => []
  | n + 1, index, st =>
    let st' := idxStep dataList options index st
    ⟨st'.sellNineIndex, st'.buyNineIndex⟩ :: idxGo dataList options n (index + 1) st'

/-- The index-emitting `createTdSetupResults`: one completion-index record per input bar. -/
def createTdSetupResults (dataList : List KLineData) (options : TdOptions) :
    List TdSetupResult :=
  idxGo dataList options dataList.length 0 initState

/-- The mutable state after the first `i` loop iterations. -/
def stateAfter (dataList : List KLineData) (options : TdOptions) : Nat → LoopState
  | 0 => initState
  | i + 1 => idxStep dataList options i (stateAfter dataList options i)

/-- The `sellSetupIndex` field of the record at bar `i`. -/
def sellIdxAt (dataList : List KLineData) (options : TdOptions) (i : Nat) : Option Nat :=
  (((createTdSetupResults dataList options)[i]?).getD default).sellSetupIndex

/-- The `buySetupIndex` field of the record at bar `i`. -/
def buyIdxAt (dataList : List KLineData) (options : TdOptions) (i : Nat) : Option Nat :=
  (((createTdSetupResults dataList options)[i]?).getD default).buySetupIndex

end IndexVariant

/-! ### The draw callback of the count-emitting version, as a canvas-operation trace -/

/-- The color constants of the count-emitting version. -/
def SELL_COLOR : String := "#f87171"

def BUY_COLOR : String := "#4ade80"

def HIGHLIGHT_COLOR : String := "#facc15"

def CLOSE_ONLY_SELL : String := "#fb7185"

def CLOSE_ONLY_BUY : String := "#60a5fa"

/-- One operation performed on the canvas context.  `fillText` additionally records the
loop index at which it was issued, so the trace states which bar a label belongs to. -/
inductive CtxOp where
  | save : CtxOp
  | setTextAlign : String → CtxOp
  | setTextBaseline : String → CtxOp
  | setFont : ℚ → CtxOp
  | setFillStyle : String → CtxOp
  | fillText : String → ℚ → ℚ → Int → CtxOp
  | restore : CtxOp
deriving Repr, DecidableEq

/-- The fractional visible index window supplied by the host (`from` is a Lean keyword,
hence `vFrom` / `vTo`). -/
structure VisibleRange where
  vFrom : ℚ
  vTo : ℚ

/-- The pane pixel bounding box supplied by the host. -/
structure Bounding where
  left : ℚ
  top : ℚ
  width : ℚ
  height : ℚ

/-- The parameters of one draw call.  `indicatorResult` is `none` when `indicator.result`
is absent; `convertToPixel` is `none` when `yAxis.convertToPixel` is not a function
(the `typeof` check in the source); `barSpaceBar` is `barSpace.bar`. -/
structure DrawParams where
  indicatorResult : Option (List CountVariant.TdSetupResult)
  visibleRange : VisibleRange
  bounding : Bounding
  convertToPixel : Option (ℚ → ℚ)
  barSpaceBar : ℚ
  kLineDataList : List KLineData

/-- JavaScript truthiness of the `sellSetup` / `buySetup` fields: `null` and `0` are
falsy, every other number is truthy. -/
def truthy : Option Nat → Bool
  | none => false
  | some v => decide (v ≠ 0)

/-- The canvas operations issued by one iteration of the draw loop at `index`.
Out-of-range indices read `undefined` in JavaScript, which is falsy and skipped;
`Number.isFinite x` is always true over `ℚ`, so only the bounding test remains. -/
def drawBarOps (closeOnly : Bool) (results : List CountVariant.TdSetupResult)
    (kLineDataList : List KLineData) (vFrom left right top bottom barWidth fontSize : ℚ)
    (convert : Option (ℚ → ℚ)) (index : Int) : List CtxOp :=
  if index < 0 then []
  else
    match results[index.toNat]?, kLineDataList[index.toNat]? with
    | some setup, some candle =>
      let relativeIndex : ℚ := mkRat index 1 - vFrom
      let x := left + (relativeIndex + 1 / 2) * barWidth
      if x < left - barWidth ∨ x > right + barWidth then []
      else
        let sellOps :=
          if truthy setup.sellSetup then
            let v := setup.sellSetup.getD 0
            let highPx := match convert with
              | some f => f candle.high
              | none => top
            let y := max (top + fontSize * (3 / 5)) (highPx - fontSize * (4 / 5))
            let color :=
              if 9 ≤ v then HIGHLIGHT_COLOR
              else if closeOnly then CLOSE_ONLY_SELL else SELL_COLOR
            [CtxOp.setFillStyle color, CtxOp.fillText (toString v) x y index]
          else []
        let buyOps :=
          if truthy setup.buySetup then
            let v := setup.buySetup.getD 0
            let lowPx := match convert with
              | some f => f candle.low
              | none => bottom
            let y := min (bottom - fontSize * (3 / 5)) (lowPx + fontSize * (4 / 5))
            let color :=
              if 9 ≤ v then HIGHLIGHT_COLOR
              else if closeOnly then CLOSE_ONLY_BUY else BUY_COLOR
            [CtxOp.setFillStyle color, CtxOp.fillText (toString v) x y index]
          else []
        sellOps ++ buyOps
    | _, _ => []

/-- The draw loop, `n` iterations starting at `index`. -/
def drawLoop (closeOnly : Bool) (results : List CountVariant.TdSetupResult)
    (kLineDataList : List KLineData) (vFrom left right top bottom barWidth fontSize : ℚ)
    (convert : Option (ℚ → ℚ)) : Nat → Int → List CtxOp
  | 0, _ => []
  | n + 1, index =>
    drawBarOps closeOnly results kLineDataList vFrom left right top bottom barWidth
        fontSize convert index ++
      drawLoop closeOnly results kLineDataList vFrom left right top bottom barWidth
        fontSize convert n (index + 1)

/-- The draw callback of the count-emitting version (`createDrawCallback closeOnly`):
returns the boolean the source returns, paired with the trace of canvas operations. -/
def drawCallback (closeOnly : Bool) (p : DrawParams) : Bool × List CtxOp :=
  let results := p.indicatorResult.getD []
  if results.length = 0 then (false, [])
  else
    let vFrom := p.visibleRange.vFrom
    let fromIdx : Int := max (⌊vFrom⌋ - 1) 0
    let toIdx : Int := min (⌈p.visibleRange.vTo⌉ + 1) ((results.length : Int) - 1)
    let barWidth := p.barSpaceBar
    let left := p.bounding.left
    let right := p.bounding.left + p.bounding.width
    let top := p.bounding.top
    let bottom := p.bounding.top + p.bounding.height
    let fontSize := max 11 (min 18 (barWidth * (3 / 4)))
    (true,
      [CtxOp.save, CtxOp.setTextAlign "center", CtxOp.setTextBaseline "middle",
          CtxOp.setFont fontSize] ++
        drawLoop closeOnly results p.kLineDataList vFrom left right top bottom barWidth
          fontSize p.convertToPixel (toIdx + 1 - fromIdx).toNat fromIdx ++
        [CtxOp.restore])

/-- The indices of the labels actually painted in a trace (its `fillText` operations). -/
def paintedIndices (ops : List CtxOp) : List Int :=
  ops.filterMap fun op =>
    match op with
    | CtxOp.fillText _ _ _ i => some i
    | _ => none

/-! ### Indicator registration -/

/-- The two registered variants, in registration order. -/
def TD_SETUP_INDICATORS : List TdOptions :=
  [⟨"TD_SETUP", "TD Setup", false⟩, ⟨"TD_SETUP_CLOSE", "TD Setup Close", true⟩]

/-- `initializeCustomIndicators`, modelled on the name catalog: it snapshots the set of
already registered names, then registers each variant whose name is absent from the
snapshot, appending it to the catalog. -/
def initializeCustomIndicators (catalog : List String) : List String :=
  let registered := catalog
  TD_SETUP_INDICATORS.foldl
    (fun cat options =>
      if options.name ∈ registered then cat else cat ++ [options.name])
    catalog

/-! ### Concrete series used by witnesses and counterexamples -/

/-- 16 strictly rising flat bars: every bar from index 4 on satisfies both variants'
sell condition. -/
def risingBars : List KLineData :=
  ([1, 2, 3, 4, 5, 6, 7, 8, 9, 10, 11, 12, 13, 14, 15, 16] : List ℚ).enum.map
    fun p => flatBar p.1 p.2

/-- 16 strictly falling flat bars: every bar from index 4 on satisfies both variants'
buy condition. -/
def fallingBars : List KLineData :=
  ([32, 31, 30, 29, 28, 27, 26, 25, 24, 23, 22, 21, 20, 19, 18, 17] : List ℚ).enum.map
    fun p => flatBar p.1 p.2

/-- Six flat bars at the same price: bar 4 and bar 5 compare equal to their lookback. -/
def steadyBars : List KLineData :=
  ([5, 5, 5, 5, 5, 5] : List ℚ).enum.map fun p => flatBar p.1 p.2

/-- The range-aware registered variant. -/
def tdOpts : TdOptions := ⟨"TD_SETUP", "TD Setup", false⟩

/-- The close-only registered variant. -/
def tdOptsClose : TdOptions := ⟨"TD_SETUP_CLOSE", "TD Setup Close", true⟩

/-- 22 flat bars whose closes rise through bar 12 and then fall: the sell streak reaches
9 at bar 12 and the buy streak reaches 9 at bar 21. -/
def twoNinesBars : List KLineData :=
  ([10, 10, 10, 10, 11, 12, 13, 14, 15, 16, 17, 18, 19,
    15, 14, 13, 12, 11, 10, 9, 8, 7] : List ℚ).enum.map
    fun p => flatBar p.1 p.2

/-- A 20-record result sequence for the renderer scenario: completed counts at
indices 9, 10, 11 and nothing elsewhere. -/
def scenarioResults : List CountVariant.TdSetupResult :=
  (List.range 20).map fun i =>
    if i = 9 ∨ i = 10 then ⟨some 9, none⟩
    else if i = 11 then ⟨none, some 5⟩
    else ⟨none, none⟩

/-- 20 flat bars backing `scenarioResults`. -/
def scenarioBars : List KLineData :=
  (List.range 20).map fun i => flatBar i (50 : ℚ)

/-- The draw parameters of the renderer scenario: `visibleRange = {from 10, to 10}`,
bounding box `{left 0, top 0, width 100, height 100}`, bar width 10. -/
def scenarioParams : DrawParams :=
  ⟨some scenarioResults, ⟨10, 10⟩, ⟨0, 0, 100, 100⟩, some (fun _ => (50 : ℚ)), 10,
    scenarioBars⟩

/-- Draw parameters whose result sequence is non-empty but carries no setup at all. -/
def nothingToPaintParams : DrawParams :=
  ⟨some [⟨none, none⟩], ⟨0, 0⟩, ⟨0, 0, 100, 100⟩, some (fun _ => (50 : ℚ)), 10,
    [flatBar 0 50]⟩

/-! ## Helper lemmas about the count-emitting calculator -/

theorem count_tdGo_length (dataList : List KLineData) (options : TdOptions) :
    ∀ n index sellCount buyCount,
      (CountVariant.tdGo dataList options n index sellCount buyCount).length = n := by
  intro n
  induction n with
  | zero => intro index s b; rfl
  | succ n ih =>
    intro index s b
    simp [CountVariant.tdGo, ih]

theorem count_countersAfter_succ (dataList : List KLineData) (options : TdOptions)
    (i : Nat) :
    CountVariant.countersAfter dataList options (i + 1) =
      ((CountVariant.countStep dataList options i
          (CountVariant.countersAfter dataList options i).1
          (CountVariant.countersAfter dataList options i).2).sellCount,
       (CountVariant.countStep dataList options i
          (CountVariant.countersAfter dataList options i).1
          (CountVariant.countersAfter dataList options i).2).buyCount) := rfl

theorem count_tdGo_getElem (dataList : List KLineData) (options : TdOptions) :
    ∀ n index j, j < n →
      (CountVariant.tdGo dataList options n index
          (CountVariant.countersAfter dataList options index).1
          (CountVariant.countersAfter dataList options index).2)[j]? =
        some (CountVariant.resultAt dataList options (index + j)) := by
  intro n
  induction n with
  | zero => intro index j hj; omega
  | succ n ih =>
    intro index j hj
    match j with
    | 0 =>
      simp [CountVariant.tdGo, CountVariant.resultAt]
    | j + 1 =>
      have hstep :
          CountVariant.tdGo dataList options (n + 1) index
              (CountVariant.countersAfter dataList options index).1
              (CountVariant.countersAfter dataList options index).2 =
            (CountVariant.resultAt dataList options index) ::
              CountVariant.tdGo dataList options n (index + 1)
                (CountVariant.countersAfter dataList options (index + 1)).1
                (CountVariant.countersAfter dataList options (index + 1)).2 := by
        simp [CountVariant.tdGo, CountVariant.resultAt, CountVariant.countersAfter]
      rw [hstep]
      have hj' : j < n := by omega
      have := ih (index + 1) j hj'
      simpa [Nat.add_assoc, Nat.add_comm, Nat.add_left_comm] using this

theorem count_getElem (dataList : List KLineData) (options : TdOptions)
    (i : Nat) (hi : i < dataList.length) :
    (CountVariant.createTdSetupResults dataList options)[i]? =
      some (CountVariant.resultAt dataList options i) := by
  have h := count_tdGo_getElem dataList options dataList.length 0 i hi
  simpa [CountVariant.createTdSetupResults, CountVariant.countersAfter] using h

theorem count_step_sell_true (dataList : List KLineData) (options : TdOptions)
    (i s b : Nat) (h4 : 4 ≤ i) (hs : sellCondition dataList options i = true) :
    (CountVariant.countStep dataList options i s b).sellCount = s + 1 ∧
      (CountVariant.countStep dataList options i s b).result.sellSetup =
        some (min (s + 1) 9) := by
  simp [CountVariant.countStep, h4, hs]

theorem count_step_sell_false (dataList : List KLineData) (options : TdOptions)
    (i s b : Nat) (hs : sellCondition dataList options i = false) :
    (CountVariant.countStep dataList options i s b).sellCount = 0 ∧
      (CountVariant.countStep dataList options i s b).result.sellSetup = none := by
  by_cases h4 : 4 ≤ i <;> simp [CountVariant.countStep, h4, hs]

theorem count_step_buy_true (dataList : List KLineData) (options : TdOptions)
    (i s b : Nat) (h4 : 4 ≤ i) (hb : buyCondition dataList options i = true) :
    (CountVariant.countStep dataList options i s b).buyCount = b + 1 ∧
      (CountVariant.countStep dataList options i s b).result.buySetup =
        some (min (b + 1) 9) := by
  simp [CountVariant.countStep, h4, hb]

theorem count_step_buy_false (dataList : List KLineData) (options : TdOptions)
    (i s b : Nat) (hb : buyCondition dataList options i = false) :
    (CountVariant.countStep dataList options i s b).buyCount = 0 ∧
      (CountVariant.countStep dataList options i s b).result.buySetup = none := by
  by_cases h4 : 4 ≤ i <;> simp [CountVariant.countStep, h4, hb]

/-- `sellCondition` and `buyCondition` are mutually exclusive at every bar: the former
requires `close[i] > close[i-4]`, the latter `close[i] < close[i-4]`. -/
theorem conditions_mutually_exclusive (dataList : List KLineData) (options : TdOptions)
    (i : Nat) :
    ¬(sellCondition dataList options i = true ∧ buyCondition dataList options i = true) := by
  rintro ⟨hs, hb⟩
  by_cases hco : options.closeOnly
  · simp [sellCondition, hco] at hs
    simp [buyCondition, hco] at hb
    exact absurd hs (not_lt_of_gt hb)
  · simp [sellCondition, hco] at hs
    simp [buyCondition, hco] at hb
    exact absurd hs.1 (not_lt_of_gt hb.1)

/-! ## Claim theorems: the count-emitting calculator -/

/-- C4: for every finite bar sequence (including the empty one) and every variant,
`calculate` returns a result sequence of exactly the input's length (total function, so
no exception can be raised); the empty input yields the empty output.  Both versions of
`createTdSetupResults` satisfy the length invariant. -/
theorem calculate_length_invariant (dataList : List KLineData) (options : TdOptions) :
    (CountVariant.createTdSetupResults dataList options).length = dataList.length ∧
      CountVariant.createTdSetupResults [] options = [] ∧
      (IndexVariant.createTdSetupResults dataList options).length = dataList.length := by
  refine ⟨count_tdGo_length dataList options dataList.length 0 0 0, rfl, ?_⟩
  have hlen : ∀ n index st,
      (IndexVariant.idxGo dataList options n index st).length = n := by
    intro n
    induction n with
    | zero => intro index st; rfl
    | succ n ih =>
      intro index st
      simp [IndexVariant.idxGo, ih]
  exact hlen dataList.length 0 IndexVariant.initState

/-- C5: for every bar sequence, variant, and index `i < 4`, the emitted record has both
fields null and both running streak counters are 0 after processing bar `i`. -/
theorem warmup_invariant (dataList : List KLineData) (options : TdOptions) (i : Nat)
    (h : i < 4) :
    CountVariant.countersAfter dataList options (i + 1) = (0, 0) ∧
      (i < dataList.length →
        (CountVariant.createTdSetupResults dataList options)[i]? =
          some ⟨none, none⟩) := by
  have h4 : ¬ 4 ≤ i := by omega
  constructor
  · rw [count_countersAfter_succ]
    simp [CountVariant.countStep, h4]
  · intro hi
    rw [count_getElem dataList options i hi]
    simp [CountVariant.resultAt, CountVariant.countStep, h4]

/-- C5 witness: at bar 2 of the rising series both counters are 0 and the record is
double-null. -/
theorem warmup_invariant_witness :
    CountVariant.countersAfter risingBars tdOpts 3 = (0, 0) ∧
      (CountVariant.createTdSetupResults risingBars tdOpts)[2]? = some ⟨none, none⟩ := by
  have h := warmup_invariant risingBars tdOpts 2 (by decide)
  exact ⟨h.1, h.2 (by decide)⟩

/-- C6: at every bar `i ≥ 4` where `close[i] = close[i-4]`, neither condition holds in
either variant, both streak counters reset to 0 at that bar, and the emitted record has
both fields null. -/
theorem equality_resets_both (dataList : List KLineData) (options : TdOptions) (i : Nat)
    (h4 : 4 ≤ i)
    (hc : (dataList.getD i default).close = (dataList.getD (i - 4) default).close) :
    sellCondition dataList options i = false ∧
      buyCondition dataList options i = false ∧
      CountVariant.countersAfter dataList options (i + 1) = (0, 0) ∧
      (i < dataList.length →
        (CountVariant.createTdSetupResults dataList options)[i]? =
          some ⟨none, none⟩) := by
  have hc' : (dataList[i]?.getD default).close = (dataList[i - 4]?.getD default).close := by
    simpa [List.getD] using hc
  have hs : sellCondition dataList options i = false := by
    by_cases hco : options.closeOnly <;>
      simp [sellCondition, hco, hc', lt_irrefl]
  have hb : buyCondition dataList options i = false := by
    by_cases hco : options.closeOnly <;>
      simp [buyCondition, hco, hc', lt_irrefl]
  refine ⟨hs, hb, ?_, ?_⟩
  · rw [count_countersAfter_succ]
    rw [Prod.ext_iff]
    exact ⟨(count_step_sell_false dataList options i _ _ hs).1,
      (count_step_buy_false dataList options i _ _ hb).1⟩
  · intro hi
    rw [count_getElem dataList options i hi]
    have h1 := (count_step_sell_false dataList options i
      (CountVariant.countersAfter dataList options i).1
      (CountVariant.countersAfter dataList options i).2 hs).2
    have h2 := (count_step_buy_false dataList options i
      (CountVariant.countersAfter dataList options i).1
      (CountVariant.countersAfter dataList options i).2 hb).2
    simp only [CountVariant.resultAt]
    congr 1
    cases hres : (CountVariant.countStep dataList options i
        (CountVariant.countersAfter dataList options i).1
        (CountVariant.countersAfter dataList options i).2).result with
    | mk s b =>
      rw [hres] at h1 h2
      simp at h1 h2
      simp [h1, h2]

/-- C6 witness: bar 4 of the steady series compares equal to bar 0; both conditions are
false, both counters reset, and the record is double-null. -/
theorem equality_resets_both_witness :
    sellCondition steadyBars tdOpts 4 = false ∧
      buyCondition steadyBars tdOpts 4 = false ∧
      CountVariant.countersAfter steadyBars tdOpts 5 = (0, 0) ∧
      (CountVariant.createTdSetupResults steadyBars tdOpts)[4]? = some ⟨none, none⟩ := by
  have h := equality_resets_both steadyBars tdOpts 4 (by decide) (by decide)
  exact ⟨h.1, h.2.1, h.2.2.1, h.2.2.2 (by decide)⟩

/-- C3 (amended): in the count-emitting version, for every bar sequence, both registered
variants, and every bar `i ≥ 4`, at most one of `sellSetup` / `buySetup` is non-null,
because a bar can extend at most one of the two streaks. -/
theorem count_mutual_exclusivity (dataList : List KLineData) (options : TdOptions)
    (i : Nat) (h4 : 4 ≤ i) (hi : i < dataList.length) (r : CountVariant.TdSetupResult)
    (hr : (CountVariant.createTdSetupResults dataList options)[i]? = some r) :
    r.sellSetup = none ∨ r.buySetup = none := by
  rw [count_getElem dataList options i hi] at hr
  have hr' : CountVariant.resultAt dataList options i = r := by
    exact Option.some_injective _ hr
  by_cases hs : sellCondition dataList options i = true
  · right
    have hb : buyCondition dataList options i = false := by
      rcases Bool.eq_false_or_eq_true (buyCondition dataList options i) with h | h
      · exact absurd ⟨hs, h⟩ (conditions_mutually_exclusive dataList options i)
      · exact h
    rw [← hr']
    exact (count_step_buy_false dataList options i _ _ hb).2
  · left
    have hs' : sellCondition dataList options i = false := by
      rcases Bool.eq_false_or_eq_true (sellCondition dataList options i) with h | h
      · exact absurd h hs
      · exact h
    rw [← hr']
    exact (count_step_sell_false dataList options i _ _ hs').2

/-- C3 witness: a concrete instance of count-version mutual exclusivity. -/
theorem count_mutual_exclusivity_witness :
    ((CountVariant.resultAt risingBars tdOpts 5).sellSetup = none ∨
      (CountVariant.resultAt risingBars tdOpts 5).buySetup = none) := by
  exact count_mutual_exclusivity risingBars tdOpts 5 (by decide) (by decide)
    (CountVariant.resultAt risingBars tdOpts 5)
    (count_getElem risingBars tdOpts 5 (by decide))

/-- C3 counterexample: in the index-emitting version (also cited by the claim), the
record at bar 21 of `twoNinesBars` has BOTH `sellSetupIndex` and `buySetupIndex`
non-null: the sell streak completed at bar 12 and the buy streak at bar 21, and both
completion indices are reported on the same bar. -/
theorem idx_both_fields_nonnull :
    4 ≤ 21 ∧ 21 < twoNinesBars.length ∧
      IndexVariant.sellIdxAt twoNinesBars tdOptsClose 21 = some 12 ∧
      IndexVariant.buyIdxAt twoNinesBars tdOptsClose 21 = some 21 := by
  refine ⟨by decide, by decide, by decide, by decide⟩

theorem count_sell_run (dataList : List KLineData) (options : TdOptions) (i n : Nat)
    (h4 : 4 ≤ i) (hc : ∀ j, j < n → sellCondition dataList options (i + j) = true) :
    ∀ j, j ≤ n → (CountVariant.countersAfter dataList options (i + j)).1 =
      (CountVariant.countersAfter dataList options i).1 + j := by
  intro j
  induction j with
  | zero => simp
  | succ j ih =>
    intro hj
    have hcj := hc j (by omega)
    have h4' : 4 ≤ i + j := by omega
    have hstep := (count_step_sell_true dataList options (i + j)
      (CountVariant.countersAfter dataList options (i + j)).1
      (CountVariant.countersAfter dataList options (i + j)).2 h4' hcj).1
    have : i + (j + 1) = (i + j) + 1 := by omega
    rw [this, count_countersAfter_succ, hstep, ih (by omega)]
    show (CountVariant.countersAfter dataList options i).1 + j + 1 =
      (CountVariant.countersAfter dataList options i).1 + (j + 1)
    omega

theorem count_buy_run (dataList : List KLineData) (options : TdOptions) (i n : Nat)
    (h4 : 4 ≤ i) (hc : ∀ j, j < n → buyCondition dataList options (i + j) = true) :
    ∀ j, j ≤ n → (CountVariant.countersAfter dataList options (i + j)).2 =
      (CountVariant.countersAfter dataList options i).2 + j := by
  intro j
  induction j with
  | zero => simp
  | succ j ih =>
    intro hj
    have hcj := hc j (by omega)
    have h4' : 4 ≤ i + j := by omega
    have hstep := (count_step_buy_true dataList options (i + j)
      (CountVariant.countersAfter dataList options (i + j)).1
      (CountVariant.countersAfter dataList options (i + j)).2 h4' hcj).1
    have : i + (j + 1) = (i + j) + 1 := by omega
    rw [this, count_countersAfter_succ, hstep, ih (by omega)]
    show (CountVariant.countersAfter dataList options i).2 + j + 1 =
      (CountVariant.countersAfter dataList options i).2 + (j + 1)
    omega

/-- C1: whenever a condition holds at an eligible bar, the corresponding streak counter
is incremented and the emitted value is the counter clamped to 9; consequently, when a
condition holds on 12 consecutive eligible bars starting where its counter is 0, the
emitted values on those bars are `1,2,…,9,9,9,9` — saturating at 9, never resetting
mid-streak. -/
theorem td_setup_saturation (dataList : List KLineData) (options : TdOptions) :
    (∀ i, 4 ≤ i → i < dataList.length → sellCondition dataList options i = true →
      (CountVariant.countersAfter dataList options (i + 1)).1 =
          (CountVariant.countersAfter dataList options i).1 + 1 ∧
        ((CountVariant.createTdSetupResults dataList options)[i]?).map
            CountVariant.TdSetupResult.sellSetup =
          some (some (min ((CountVariant.countersAfter dataList options i).1 + 1) 9))) ∧
    (∀ i, 4 ≤ i → i < dataList.length → buyCondition dataList options i = true →
      (CountVariant.countersAfter dataList options (i + 1)).2 =
          (CountVariant.countersAfter dataList options i).2 + 1 ∧
        ((CountVariant.createTdSetupResults dataList options)[i]?).map
            CountVariant.TdSetupResult.buySetup =
          some (some (min ((CountVariant.countersAfter dataList options i).2 + 1) 9))) ∧
    (∀ i, 4 ≤ i → (CountVariant.countersAfter dataList options i).1 = 0 →
      (∀ j, j < 12 → sellCondition dataList options (i + j) = true) →
      ∀ j, j < 12 → i + j < dataList.length →
        ((CountVariant.createTdSetupResults dataList options)[i + j]?).map
            CountVariant.TdSetupResult.sellSetup = some (some (min (j + 1) 9))) ∧
    (∀ i, 4 ≤ i → (CountVariant.countersAfter dataList options i).2 = 0 →
      (∀ j, j < 12 → buyCondition dataList options (i + j) = true) →
      ∀ j, j < 12 → i + j < dataList.length →
        ((CountVariant.createTdSetupResults dataList options)[i + j]?).map
            CountVariant.TdSetupResult.buySetup = some (some (min (j + 1) 9))) := by
  refine ⟨?_, ?_, ?_, ?_⟩
  · intro i h4 hi hs
    have hstep := count_step_sell_true dataList options i
      (CountVariant.countersAfter dataList options i).1
      (CountVariant.countersAfter dataList options i).2 h4 hs
    refine ⟨by rw [count_countersAfter_succ, hstep.1], ?_⟩
    rw [count_getElem dataList options i hi]
    simp [CountVariant.resultAt, hstep.2]
  · intro i h4 hi hb
    have hstep := count_step_buy_true dataList options i
      (CountVariant.countersAfter dataList options i).1
      (CountVariant.countersAfter dataList options i).2 h4 hb
    refine ⟨by rw [count_countersAfter_succ, hstep.1], ?_⟩
    rw [count_getElem dataList options i hi]
    simp [CountVariant.resultAt, hstep.2]
  · intro i h4 h0 hc j hj hij
    have hrun := count_sell_run dataList options i 12 h4 hc j (by omega)
    rw [h0] at hrun
    have h4' : 4 ≤ i + j := by omega
    rw [count_getElem dataList options (i + j) hij]
    simp [CountVariant.resultAt, hrun]
    exact (count_step_sell_true dataList options (i + j) j
      (CountVariant.countersAfter dataList options (i + j)).2 h4' (hc j hj)).2
  · intro i h4 h0 hc j hj hij
    have hrun := count_buy_run dataList options i 12 h4 hc j (by omega)
    rw [h0] at hrun
    have h4' : 4 ≤ i + j := by omega
    rw [count_getElem dataList options (i + j) hij]
    simp [CountVariant.resultAt, hrun]
    exact (count_step_buy_true dataList options (i + j)
      (CountVariant.countersAfter dataList options (i + j)).1 j h4' (hc j hj)).2

/-- C1 witness: on the rising series, the sell streak starting at bar 4 emits the
saturated value `min (11+1) 9 = 9` at bar `4 + 11` (the 12th consecutive qualifying
bar). -/
theorem td_setup_saturation_witness :
    ((CountVariant.createTdSetupResults risingBars tdOpts)[4 + 11]?).map
        CountVariant.TdSetupResult.sellSetup = some (some (min (11 + 1) 9)) := by
  exact (td_setup_saturation risingBars tdOpts).2.2.1 4 (by decide) (by decide)
    (by decide) 11 (by decide) (by decide)

/-! ## Helper lemmas about the index-emitting calculator -/

theorem idx_idxGo_getElem (dataList : List KLineData) (options : TdOptions) :
    ∀ n index j, j < n →
      (IndexVariant.idxGo dataList options n index
          (IndexVariant.stateAfter dataList options index))[j]? =
        some ⟨(IndexVariant.stateAfter dataList options (index + j + 1)).sellNineIndex,
          (IndexVariant.stateAfter dataList options (index + j + 1)).buyNineIndex⟩ := by
  intro n
  induction n with
  | zero => intro index j hj; omega
  | succ n ih =>
    intro index j hj
    match j with
    | 0 =>
      simp [IndexVariant.idxGo, IndexVariant.stateAfter]
    | j + 1 =>
      have hstep :
          IndexVariant.idxGo dataList options (n + 1) index
              (IndexVariant.stateAfter dataList options index) =
            (⟨(IndexVariant.stateAfter dataList options (index + 1)).sellNineIndex,
                (IndexVariant.stateAfter dataList options (index + 1)).buyNineIndex⟩ :
                IndexVariant.TdSetupResult) ::
              IndexVariant.idxGo dataList options n (index + 1)
                (IndexVariant.stateAfter dataList options (index + 1)) := by
        simp [IndexVariant.idxGo, IndexVariant.stateAfter]
      rw [hstep]
      have hj' : j < n := by omega
      have := ih (index + 1) j hj'
      simpa [Nat.add_assoc, Nat.add_comm, Nat.add_left_comm] using this

theorem idx_sellIdxAt_eq (dataList : List KLineData) (options : TdOptions) (i : Nat)
    (hi : i < dataList.length) :
    IndexVariant.sellIdxAt dataList options i =
      (IndexVariant.stateAfter dataList options (i + 1)).sellNineIndex := by
  have h := idx_idxGo_getElem dataList options dataList.length 0 i hi
  simp only [Nat.zero_add] at h
  rw [IndexVariant.sellIdxAt, IndexVariant.createTdSetupResults]
  have h0 : IndexVariant.stateAfter dataList options 0 = IndexVariant.initState := rfl
  rw [← h0, h]
  rfl

theorem idx_buyIdxAt_eq (dataList : List KLineData) (options : TdOptions) (i : Nat)
    (hi : i < dataList.length) :
    IndexVariant.buyIdxAt dataList options i =
      (IndexVariant.stateAfter dataList options (i + 1)).buyNineIndex := by
  have h := idx_idxGo_getElem dataList options dataList.length 0 i hi
  simp only [Nat.zero_add] at h
  rw [IndexVariant.buyIdxAt, IndexVariant.createTdSetupResults]
  have h0 : IndexVariant.stateAfter dataList options 0 = IndexVariant.initState := rfl
  rw [← h0, h]
  rfl

theorem idx_step_sellNine_sticky (dataList : List KLineData) (options : TdOptions)
    (m : Nat) (st : IndexVariant.LoopState) (k : Nat)
    (h : st.sellNineIndex = some k) :
    (IndexVariant.idxStep dataList options m st).sellNineIndex = some k := by
  unfold IndexVariant.idxStep
  split
  · simp only [h]
    split <;> simp
  · simp [h]

theorem idx_step_buyNine_sticky (dataList : List KLineData) (options : TdOptions)
    (m : Nat) (st : IndexVariant.LoopState) (k : Nat)
    (h : st.buyNineIndex = some k) :
    (IndexVariant.idxStep dataList options m st).buyNineIndex = some k := by
  unfold IndexVariant.idxStep
  split
  · simp only [h]
    split <;> simp
  · simp [h]

theorem idx_sellNine_mono (dataList : List KLineData) (options : TdOptions) (k : Nat) :
    ∀ i j, i ≤ j →
      (IndexVariant.stateAfter dataList options i).sellNineIndex = some k →
      (IndexVariant.stateAfter dataList options j).sellNineIndex = some k := by
  intro i j hij h
  induction j with
  | zero =>
    have : i = 0 := by omega
    rwa [this] at h
  | succ j ih =>
    rcases Nat.lt_or_ge i (j + 1) with hlt | hge
    · have hj := ih (by omega)
      rw [show j + 1 = j + 1 from rfl, IndexVariant.stateAfter]
      exact idx_step_sellNine_sticky dataList options j _ k hj
    · have : i = j + 1 := by omega
      rwa [this] at h

theorem idx_buyNine_mono (dataList : List KLineData) (options : TdOptions) (k : Nat) :
    ∀ i j, i ≤ j →
      (IndexVariant.stateAfter dataList options i).buyNineIndex = some k →
      (IndexVariant.stateAfter dataList options j).buyNineIndex = some k := by
  intro i j hij h
  induction j with
  | zero =>
    have : i = 0 := by omega
    rwa [this] at h
  | succ j ih =>
    rcases Nat.lt_or_ge i (j + 1) with hlt | hge
    · have hj := ih (by omega)
      rw [show j + 1 = j + 1 from rfl, IndexVariant.stateAfter]
      exact idx_step_buyNine_sticky dataList options j _ k hj
    · have : i = j + 1 := by omega
      rwa [this] at h

theorem idx_step_sellNine_of_none (dataList : List KLineData) (options : TdOptions)
    (m : Nat) (st : IndexVariant.LoopState) (h : st.sellNineIndex = none) :
    (IndexVariant.idxStep dataList options m st).sellNineIndex = none ∨
      ((IndexVariant.idxStep dataList options m st).sellNineIndex = some m ∧
        9 ≤ (IndexVariant.idxStep dataList options m st).sellCount) := by
  unfold IndexVariant.idxStep
  split
  · by_cases hsc : sellCondition dataList options m = true
    · by_cases hnine : 9 ≤ st.sellCount + 1
      · right
        simp [hsc, hnine, h]
      · left
        simp [hsc, hnine, h]
    · left
      simp [Bool.of_not_eq_true hsc, h]
  · left
    simp [h]

theorem idx_step_buyNine_of_none (dataList : List KLineData) (options : TdOptions)
    (m : Nat) (st : IndexVariant.LoopState) (h : st.buyNineIndex = none) :
    (IndexVariant.idxStep dataList options m st).buyNineIndex = none ∨
      ((IndexVariant.idxStep dataList options m st).buyNineIndex = some m ∧
        9 ≤ (IndexVariant.idxStep dataList options m st).buyCount) := by
  unfold IndexVariant.idxStep
  split
  · by_cases hbc : buyCondition dataList options m = true
    · by_cases hnine : 9 ≤ st.buyCount + 1
      · right
        simp [hbc, hnine, h]
      · left
        simp [hbc, hnine, h]
    · left
      simp [Bool.of_not_eq_true hbc, h]
  · left
    simp [h]

theorem idx_sellNine_first_set (dataList : List KLineData) (options : TdOptions) :
    ∀ i k, (IndexVariant.stateAfter dataList options i).sellNineIndex = some k →
      k < i ∧ (IndexVariant.stateAfter dataList options k).sellNineIndex = none ∧
        (IndexVariant.stateAfter dataList options (k + 1)).sellNineIndex = some k ∧
        9 ≤ (IndexVariant.stateAfter dataList options (k + 1)).sellCount := by
  intro i
  induction i with
  | zero =>
    intro k h
    simp [IndexVariant.stateAfter, IndexVariant.initState] at h
  | succ i ih =>
    intro k h
    rcases hp : (IndexVariant.stateAfter dataList options i).sellNineIndex with _ | k'
    · rcases idx_step_sellNine_of_none dataList options i _ hp with hcase | hcase
      · rw [IndexVariant.stateAfter] at h
        rw [h] at hcase
        cases hcase
      · rw [IndexVariant.stateAfter] at h
        have heq : some k = some i := by rw [← h]; exact hcase.1
        have hk : k = i := Option.some.inj heq
        subst hk
        exact ⟨by omega, hp, by rw [IndexVariant.stateAfter]; exact hcase.1,
          by rw [IndexVariant.stateAfter]; exact hcase.2⟩
    · have hsticky := idx_step_sellNine_sticky dataList options i _ k' hp
      rw [IndexVariant.stateAfter] at h
      rw [h] at hsticky
      have hk : k' = k := by
        injection hsticky with hki
        omega
      subst hk
      have := ih k' hp
      exact ⟨by omega, this.2.1, this.2.2.1, this.2.2.2⟩

theorem idx_buyNine_first_set (dataList : List KLineData) (options : TdOptions) :
    ∀ i k, (IndexVariant.stateAfter dataList options i).buyNineIndex = some k →
      k < i ∧ (IndexVariant.stateAfter dataList options k).buyNineIndex = none ∧
        (IndexVariant.stateAfter dataList options (k + 1)).buyNineIndex = some k ∧
        9 ≤ (IndexVariant.stateAfter dataList options (k + 1)).buyCount := by
  intro i
  induction i with
  | zero =>
    intro k h
    simp [IndexVariant.stateAfter, IndexVariant.initState] at h
  | succ i ih =>
    intro k h
    rcases hp : (IndexVariant.stateAfter dataList options i).buyNineIndex with _ | k'
    · rcases idx_step_buyNine_of_none dataList options i _ hp with hcase | hcase
      · rw [IndexVariant.stateAfter] at h
        rw [h] at hcase
        cases hcase
      · rw [IndexVariant.stateAfter] at h
        have heq : some k = some i := by rw [← h]; exact hcase.1
        have hk : k = i := Option.some.inj heq
        subst hk
        exact ⟨by omega, hp, by rw [IndexVariant.stateAfter]; exact hcase.1,
          by rw [IndexVariant.stateAfter]; exact hcase.2⟩
    · have hsticky := idx_step_buyNine_sticky dataList options i _ k' hp
      rw [IndexVariant.stateAfter] at h
      rw [h] at hsticky
      have hk : k' = k := by
        injection hsticky with hki
        omega
      subst hk
      have := ih k' hp
      exact ⟨by omega, this.2.1, this.2.2.1, this.2.2.2⟩

/-- C10: in the index-emitting implementation, only the first completion per direction is
ever recorded: if the record at bar `i` carries `sellSetupIndex = some k` then `k ≤ i`,
the sell streak counter had reached 9 when bar `k` was processed, the record at bar `k`
itself carries `some k`, every record from bar `k` on carries the same `some k` (so no
later streak reaching 9 is ever recorded), and every record before bar `k` carries null;
symmetrically for `buySetupIndex`. -/
theorem idx_first_completion_only (dataList : List KLineData) (options : TdOptions) :
    (∀ i k, i < dataList.length →
      IndexVariant.sellIdxAt dataList options i = some k →
      k ≤ i ∧ 9 ≤ (IndexVariant.stateAfter dataList options (k + 1)).sellCount ∧
        IndexVariant.sellIdxAt dataList options k = some k ∧
        (∀ j, k ≤ j → j < dataList.length →
          IndexVariant.sellIdxAt dataList options j = some k) ∧
        (∀ m, m < k → IndexVariant.sellIdxAt dataList options m = none)) ∧
    (∀ i k, i < dataList.length →
      IndexVariant.buyIdxAt dataList options i = some k →
      k ≤ i ∧ 9 ≤ (IndexVariant.stateAfter dataList options (k + 1)).buyCount ∧
        IndexVariant.buyIdxAt dataList options k = some k ∧
        (∀ j, k ≤ j → j < dataList.length →
          IndexVariant.buyIdxAt dataList options j = some k) ∧
        (∀ m, m < k → IndexVariant.buyIdxAt dataList options m = none)) := by
  constructor
  · intro i k hi h
    rw [idx_sellIdxAt_eq dataList options i hi] at h
    obtain ⟨hki, hnone, hset, hcount⟩ := idx_sellNine_first_set dataList options (i + 1) k h
    have hk_le : k ≤ i := by omega
    have hk_len : k < dataList.length := by omega
    refine ⟨hk_le, hcount, ?_, ?_, ?_⟩
    · rw [idx_sellIdxAt_eq dataList options k hk_len]
      exact hset
    · intro j hkj hj
      rw [idx_sellIdxAt_eq dataList options j hj]
      exact idx_sellNine_mono dataList options k (k + 1) (j + 1) (by omega) hset
    · intro m hm
      have hm_len : m < dataList.length := by omega
      rw [idx_sellIdxAt_eq dataList options m hm_len]
      rcases hms : (IndexVariant.stateAfter dataList options (m + 1)).sellNineIndex
        with _ | k''
      · rfl
      · have := idx_sellNine_mono dataList options k'' (m + 1) k (by omega) hms
        rw [this] at hnone
        cases hnone
  · intro i k hi h
    rw [idx_buyIdxAt_eq dataList options i hi] at h
    obtain ⟨hki, hnone, hset, hcount⟩ := idx_buyNine_first_set dataList options (i + 1) k h
    have hk_le : k ≤ i := by omega
    have hk_len : k < dataList.length := by omega
    refine ⟨hk_le, hcount, ?_, ?_, ?_⟩
    · rw [idx_buyIdxAt_eq dataList options k hk_len]
      exact hset
    · intro j hkj hj
      rw [idx_buyIdxAt_eq dataList options j hj]
      exact idx_buyNine_mono dataList options k (k + 1) (j + 1) (by omega) hset
    · intro m hm
      have hm_len : m < dataList.length := by omega
      rw [idx_buyIdxAt_eq dataList options m hm_len]
      rcases hms : (IndexVariant.stateAfter dataList options (m + 1)).buyNineIndex
        with _ | k''
      · rfl
      · have := idx_buyNine_mono dataList options k'' (m + 1) k (by omega) hms
        rw [this] at hnone
        cases hnone

/-- C10 witness: on `twoNinesBars` the sell streak completes at bar 12, and the record
at bar 15 — obtained from the record at bar 21 through the theorem — still carries
completion index 12. -/
theorem idx_first_completion_only_witness :
    IndexVariant.sellIdxAt twoNinesBars tdOptsClose 15 = some 12 := by
  exact ((idx_first_completion_only twoNinesBars tdOptsClose).1 21 12 (by decide)
    (by decide)).2.2.2.1 15 (by decide) (by decide)

/-! ## Helper lemmas about the draw callback -/

theorem drawBarOps_painted (closeOnly : Bool) (results : List CountVariant.TdSetupResult)
    (kLineDataList : List KLineData) (vFrom left right top bottom barWidth fontSize : ℚ)
    (convert : Option (ℚ → ℚ)) (index : Int) :
    ∀ idx ∈ paintedIndices (drawBarOps closeOnly results kLineDataList vFrom left right
      top bottom barWidth fontSize convert index), idx = index := by
  intro idx h
  unfold drawBarOps at h
  split at h
  · simp [paintedIndices] at h
  · rcases hres : results[index.toNat]? with _ | setup
    · rw [hres] at h
      simp [paintedIndices] at h
    · rcases hkl : kLineDataList[index.toNat]? with _ | candle
      · rw [hres, hkl] at h
        simp [paintedIndices] at h
      · rw [hres, hkl] at h
        repeat split at h
        all_goals simp_all [paintedIndices]
        all_goals obtain ⟨a, ⟨-, hdisj⟩, hmatch⟩ := h
        all_goals cases a <;> simp_all
        all_goals tauto

theorem drawLoop_painted (closeOnly : Bool) (results : List CountVariant.TdSetupResult)
    (kLineDataList : List KLineData) (vFrom left right top bottom barWidth fontSize : ℚ)
    (convert : Option (ℚ → ℚ)) :
    ∀ n index idx, idx ∈ paintedIndices (drawLoop closeOnly results kLineDataList vFrom
      left right top bottom barWidth fontSize convert n index) →
      index ≤ idx ∧ idx < index + n := by
  intro n
  induction n with
  | zero => intro index idx h; simp [drawLoop, paintedIndices] at h
  | succ n ih =>
    intro index idx h
    rw [drawLoop, paintedIndices, List.filterMap_append] at h
    rcases List.mem_append.mp h with hmem | hmem
    · have := drawBarOps_painted closeOnly results kLineDataList vFrom left right top
        bottom barWidth fontSize convert index idx hmem
      omega
    · have := ih (index + 1) idx hmem
      omega

theorem drawCallback_painted_range (closeOnly : Bool) (p : DrawParams) :
    ∀ idx ∈ paintedIndices (drawCallback closeOnly p).2,
      max (⌊p.visibleRange.vFrom⌋ - 1) 0 ≤ idx ∧
        idx ≤ min (⌈p.visibleRange.vTo⌉ + 1)
          (((p.indicatorResult.getD []).length : Int) - 1) := by
  intro idx h
  rw [drawCallback] at h
  split at h
  · simp [paintedIndices] at h
  · simp only [paintedIndices, List.filterMap_append, List.filterMap_cons,
      List.filterMap_nil] at h
    simp only [List.append_nil, List.nil_append, List.append_assoc] at h
    have := drawLoop_painted closeOnly (p.indicatorResult.getD []) p.kLineDataList
      p.visibleRange.vFrom p.bounding.left (p.bounding.left + p.bounding.width)
      p.bounding.top (p.bounding.top + p.bounding.height) p.barSpaceBar
      (max 11 (min 18 (p.barSpaceBar * (3 / 4)))) p.convertToPixel _ _ idx
      (by rw [paintedIndices]; exact h)
    omega

/-! ## Claim theorems: renderer and registration -/

/-- C7: labels are painted only at indices inside the clamped range
`[max(floor(from) - 1, 0), min(ceil(to) + 1, len - 1)]`; in the renderer scenario
(`visibleRange = {from 10, to 10}`, 20 results, bounding `{0, 0, 100, 100}`, bar width
10) every painted index lies in `[9, 11]` and the call returns true, and on the concrete
scenario data the painted indices are exactly 9, 10, 11. -/
theorem draw_clamped_range :
    (∀ (closeOnly : Bool) (p : DrawParams),
      ((paintedIndices (drawCallback closeOnly p).2).all fun idx =>
        decide (max (⌊p.visibleRange.vFrom⌋ - 1) 0 ≤ idx) &&
          decide (idx ≤ min (⌈p.visibleRange.vTo⌉ + 1)
            (((p.indicatorResult.getD []).length : Int) - 1))) = true) ∧
    (∀ (closeOnly : Bool) (results : List CountVariant.TdSetupResult)
        (bars : List KLineData) (conv : Option (ℚ → ℚ)),
      results.length = 20 →
      ((paintedIndices (drawCallback closeOnly
          ⟨some results, ⟨10, 10⟩, ⟨0, 0, 100, 100⟩, conv, 10, bars⟩).2).all fun idx =>
            decide (9 ≤ idx) && decide (idx ≤ 11)) = true ∧
        (drawCallback closeOnly
          ⟨some results, ⟨10, 10⟩, ⟨0, 0, 100, 100⟩, conv, 10, bars⟩).1 = true) ∧
    (paintedIndices (drawCallback false scenarioParams).2 = [9, 10, 11] ∧
      (drawCallback false scenarioParams).1 = true) := by
  refine ⟨?_, ?_, ?_, ?_⟩
  · intro closeOnly p
    rw [List.all_eq_true]
    intro idx hmem
    have h := drawCallback_painted_range closeOnly p idx hmem
    simp only [Bool.and_eq_true, decide_eq_true_eq]
    exact h
  · intro closeOnly results bars conv hlen
    constructor
    · rw [List.all_eq_true]
      intro idx hmem
      have h := drawCallback_painted_range closeOnly
        ⟨some results, ⟨10, 10⟩, ⟨0, 0, 100, 100⟩, conv, 10, bars⟩ idx hmem
      simp only [Option.getD_some] at h
      rw [hlen] at h
      have e1 : max (⌊(10 : ℚ)⌋ - 1) 0 = (9 : Int) := by decide
      have e2 : min (⌈(10 : ℚ)⌉ + 1) (((20 : Nat) : Int) - 1) = (11 : Int) := by decide
      rw [e1, e2] at h
      simp only [Bool.and_eq_true, decide_eq_true_eq]
      exact h
    · rw [drawCallback]
      simp [hlen]
  · norm_num [drawCallback, scenarioParams, scenarioResults, scenarioBars, flatBar,
      drawLoop, drawBarOps, paintedIndices, truthy, List.range_succ]
    decide
  · norm_num [drawCallback, scenarioParams, scenarioResults]

/-- C7 witness: the scenario conjunct applied to the concrete scenario data. -/
theorem draw_clamped_range_witness :
    ((paintedIndices (drawCallback false scenarioParams).2).all fun idx =>
      decide (9 ≤ idx) && decide (idx ≤ 11)) = true ∧
      (drawCallback false scenarioParams).1 = true := by
  exact draw_clamped_range.2.1 false scenarioResults scenarioBars
    (some fun _ => (50 : ℚ)) (by simp [scenarioResults])

/-- C2 counterexample: a call with a non-empty result sequence that contains no setup at
all paints nothing (its trace holds no `fillText`) yet returns true — so the returned
boolean does not report whether anything was painted. -/
theorem draw_true_without_painting :
    (drawCallback false nothingToPaintParams).1 = true ∧
      paintedIndices (drawCallback false nothingToPaintParams).2 = [] := by
  constructor
  · rfl
  · norm_num [drawCallback, nothingToPaintParams, drawLoop, drawBarOps, paintedIndices,
      truthy]

/-- C2 (amended): the draw callback returns true iff the result sequence is non-empty;
the return value reports non-emptiness of `indicator.result`, not whether any label was
actually painted during the call. -/
theorem draw_returns_nonempty (closeOnly : Bool) (p : DrawParams) :
    (drawCallback closeOnly p).1 = true ↔ p.indicatorResult.getD [] ≠ [] := by
  rw [drawCallback]
  split
  · rename_i hzero
    rw [List.length_eq_zero] at hzero
    simp [hzero]
  · rename_i hzero
    simp only [show ∀ b t, ((true, t) : Bool × List CtxOp).1 = b ↔ b = true from
      by intro b t; constructor <;> intro h <;> simp_all]
    simp
    intro hx
    rw [hx] at hzero
    simp at hzero

/-- C8: a draw call whose result sequence is absent or empty returns false and performs
no canvas operation at all (its trace is empty). -/
theorem draw_empty_returns_false (closeOnly : Bool) (vr : VisibleRange) (b : Bounding)
    (conv : Option (ℚ → ℚ)) (bw : ℚ) (bars : List KLineData) :
    drawCallback closeOnly ⟨none, vr, b, conv, bw, bars⟩ = (false, []) ∧
      drawCallback closeOnly ⟨some [], vr, b, conv, bw, bars⟩ = (false, []) :=
  ⟨rfl, rfl⟩

/-- C9: registration is idempotent.  Each of the two indicator names is appended only
when absent from the catalog (the occurrence count grows by one exactly when the name is
one of the two and was absent, and is unchanged otherwise — so no entry is ever
duplicated), and running the routine a second time leaves the catalog unchanged.  The
routine is a total function, so it never raises. -/
theorem registration_idempotent (catalog : List String) :
    initializeCustomIndicators (initializeCustomIndicators catalog) =
        initializeCustomIndicators catalog ∧
      ∀ n, (initializeCustomIndicators catalog).count n =
        catalog.count n +
          (if (n = "TD_SETUP" ∨ n = "TD_SETUP_CLOSE") ∧ ¬n ∈ catalog then 1 else 0) := by
  have hform : ∀ c : List String,
      initializeCustomIndicators c =
        (if "TD_SETUP_CLOSE" ∈ c then (if "TD_SETUP" ∈ c then c else c ++ ["TD_SETUP"])
         else (if "TD_SETUP" ∈ c then c else c ++ ["TD_SETUP"]) ++ ["TD_SETUP_CLOSE"]) := by
    intro c
    by_cases h1 : "TD_SETUP" ∈ c <;> by_cases h2 : "TD_SETUP_CLOSE" ∈ c <;>
      simp [initializeCustomIndicators, TD_SETUP_INDICATORS, h1, h2]
  constructor
  · by_cases h1 : "TD_SETUP" ∈ catalog <;> by_cases h2 : "TD_SETUP_CLOSE" ∈ catalog <;>
      rw [hform, hform] <;>
      simp [h1, h2]
  · intro n
    rw [hform]
    by_cases h1 : "TD_SETUP" ∈ catalog <;> by_cases h2 : "TD_SETUP_CLOSE" ∈ catalog <;>
      by_cases hn1 : n = "TD_SETUP" <;> by_cases hn2 : n = "TD_SETUP_CLOSE" <;>
      simp_all [List.count_append, List.count_singleton]
